import Mathlib

/-!
Shallow embedding of `social_sqlalchemy/storage.py` (python-social-auth's
SQLAlchemy storage adapter).

Each database table is a `List` of row structures; the SQLAlchemy session is
modelled where it matters (pending vs committed rows for the save helper, and
an explicit functional state for operations that write).  SQLAlchemy 2.0
`Session.scalar(select(...).filter_by(...))` returns the first matching row
or `None` and raises no `IndexError`; it is embedded as `sessionScalar`,
which always returns `Except.ok` of an `Option`.  The `try/except IndexError`
wrappers of the source are embedded faithfully by `tryIndexError`, so that
the reachability of each `except` branch can be settled rather than assumed.
-/

/-- Python exception kinds that the embedded code paths can mention: the
`IndexError` named by the source's `except` clauses, and the
`AttributeError` that attribute assignment on `None` raises. -/
inductive PyExc where
  | indexError
  | attributeError
deriving DecidableEq, Repr

/-- Embedding of `session.scalar(select(model).filter_by(...))`: the first
row satisfying the filter, or `None`; never an exception. -/
def sessionScalar {α : Type} (rows : List α) (p : α → Bool) : Except PyExc (Option α) :=
  Except.ok (List.find? p rows)

/-- Embedding of `try: body except IndexError: handler`. -/
def tryIndexError {α : Type} (body : Except PyExc α) (handler : Unit → Except PyExc α) :
    Except PyExc α :=
  match body with
  | Except.error PyExc.indexError => handler ()
  | other => other

/-- A Python value as passed for a `uid`: either already a string, or some
other value (an integer, say) that `str()` coerces. -/
inductive PyVal where
  | str (s : String)
  | int (n : Int)
deriving DecidableEq, Repr

/-- Embedding of `if not isinstance(uid, six.string_types): uid = str(uid)`. -/
def pyStr : PyVal → String
  | PyVal.str s => s
  | PyVal.int n => toString n

/-- A user record as the adapter sees it: its primary key and, when the
`has_usable_password` attribute exists, what calling it returns
(`none` models a user object without the attribute). -/
structure PyUser where
  id : Int
  has_usable_password : Option Bool
deriving DecidableEq, Repr

/-- A row of `social_auth_usersocialauth`. -/
structure UserSocialAuth where
  id : Int
  provider : String
  uid : String
  user_id : Int
deriving DecidableEq, Repr

/-- A row of `social_auth_nonce`. -/
structure NonceRow where
  id : Int
  server_url : String
  timestamp : Int
  salt : String
deriving DecidableEq, Repr

/-- A row of `social_auth_association`; `secret` holds base64 text. -/
structure AssocRow where
  id : Int
  server_url : String
  handle : String
  secret : String
  issued : Int
  lifetime : Int
  assoc_type : String
deriving DecidableEq, Repr

/-- The `openid.association.Association` object handed to `store`:
`secret` is raw bytes. -/
structure OpenIDAssociation where
  handle : String
  secret : List Nat
  issued : Int
  lifetime : Int
  assoc_type : String
deriving DecidableEq, Repr

/-- A row of `social_auth_code`. -/
structure CodeRow where
  id : Int
  email : String
  code : String
deriving DecidableEq, Repr

/-- A row of `social_auth_partial`. -/
structure PartialRow where
  id : Int
  token : String
  data : List (String × String)
  next_step : Int
  backend : String
deriving DecidableEq, Repr

/-- The session's state around the save helper: rows `add`ed but not yet
written, and the durable (committed) rows. -/
structure SessionState (α : Type) where
  pending : List α
  committed : List α
deriving DecidableEq, Repr

/-- session.add(instance): registers the object with the session. -/
def Session.add {α : Type} (s : SessionState α) (x : α) : SessionState α :=
  { s with pending := s.pending ++ [x] }

/-- session.commit(): writes every pending row durably. -/
def Session.commit {α : Type} (s : SessionState α) : SessionState α :=
  { pending := [], committed := s.committed ++ s.pending }

/-- session.flush(): sends pending rows to the database.  After the commit
of `_save_instance` there is nothing left to send; the model makes it write
out whatever is pending, like commit's write step. -/
def Session.flush {α : Type} (s : SessionState α) : SessionState α :=
  { pending := [], committed := s.committed ++ s.pending }

namespace SQLAlchemyMixin

/-- The class attribute `COMMIT_SESSION = True` of `SQLAlchemyMixin`; no
subclass in the source overrides it. -/
def COMMIT_SESSION : Bool := true

/-- Embedding of `SQLAlchemyMixin._save_instance`: add the instance, then
(since `COMMIT_SESSION` holds) commit and flush, and return the instance.
The `else` branch calls `cls._flush()`, embedded as a plain flush (its
`except AssertionError` fallback involves the external transaction manager
and is unreachable in this model, where flush does not raise). -/
def save_instance {α : Type} (s : SessionState α) (instance_ : α) : α × SessionState α :=
  let s1 := Session.add s instance_
  let s2 :=
    if COMMIT_SESSION then Session.flush (Session.commit s1)
    else Session.flush s1
  (instance_, s2)

end SQLAlchemyMixin

namespace SQLAlchemyUserMixin

/-- Embedding of `allowed_to_disconnect`: the query counts this user's
links, excluding the one with `association_id` when that is given and
otherwise excluding the `backend_name` provider; the password check calls
`user.has_usable_password()` when the attribute exists and defaults to
`True` otherwise. -/
def allowed_to_disconnect (db : List UserSocialAuth) (user : PyUser)
    (backend_name : String) (association_id : Option Int) : Bool :=
  let qs := db.filter (fun r =>
    match association_id with
    | some aid => r.id != aid
    | none => r.provider != backend_name)
  let qs := qs.filter (fun r => r.user_id == user.id)
  let valid_password :=
    match user.has_usable_password with
    | some b => b
    | none => true
  valid_password || decide (qs.length > 0)

/-- How many of `user`'s links remain once the link designated by
`association_id` (or, with no id, every link of `backend_name`) is
taken out: the count `allowed_to_disconnect`'s query computes. -/
def remaining_links (db : List UserSocialAuth) (user : PyUser)
    (backend_name : String) (association_id : Option Int) : Nat :=
  ((db.filter (fun r =>
      match association_id with
      | some aid => r.id != aid
      | none => r.provider != backend_name)).filter
    (fun r => r.user_id == user.id)).length

/-- Embedding of `get_social_auth`: coerce the uid, run the scalar query,
return `None` on `IndexError` (the handler the source writes, reachable or
not). -/
def get_social_auth (db : List UserSocialAuth) (provider : String) (uid : PyVal) :
    Except PyExc (Option UserSocialAuth) :=
  let u := pyStr uid
  tryIndexError (sessionScalar db (fun r => r.provider == provider && r.uid == u))
    (fun _ => Except.ok none)

/-- Embedding of `get_social_auth_for_user`: filter by the user, then by
`provider` only when that argument is truthy (a non-`None`, non-empty
string), then by `id` only when truthy (non-`None`, non-zero). -/
def get_social_auth_for_user (db : List UserSocialAuth) (user : PyUser)
    (provider : Option String) (id : Option Int) : List UserSocialAuth :=
  let qs := db.filter (fun r => r.user_id == user.id)
  let qs :=
    match provider with
    | some p => if p = "" then qs else qs.filter (fun r => r.provider == p)
    | none => qs
  match id with
  | some i => if i = 0 then qs else qs.filter (fun r => r.id == i)
  | none => qs

/-- Embedding of `create_social_auth`: coerce the uid, construct the row
(the primary key is the autoincrement value the commit assigns) and save
it; returns the new instance and the updated table. -/
def create_social_auth (db : List UserSocialAuth) (user : PyUser) (uid : PyVal)
    (provider : String) : UserSocialAuth × List UserSocialAuth :=
  let u := pyStr uid
  let row : UserSocialAuth :=
    { id := Int.ofNat db.length + 1, provider := provider, uid := u, user_id := user.id }
  (row, db ++ [row])

end SQLAlchemyUserMixin

namespace SQLAlchemyNonceMixin

/-- Embedding of `Nonce.use`: `try: return scalar(filter_by(server_url,
timestamp, salt)) except IndexError: return new_instance(...)`.  The result
carries the returned Python value (`none` models `None`) and the table
after the call. -/
def use (db : List NonceRow) (server_url : String) (timestamp : Int) (salt : String) :
    Except PyExc (Option NonceRow × List NonceRow) :=
  tryIndexError
    ((sessionScalar db (fun r =>
        r.server_url == server_url && r.timestamp == timestamp && r.salt == salt)).map
      (fun r => (r, db)))
    (fun _ =>
      let row : NonceRow :=
        { id := Int.ofNat db.length + 1, server_url := server_url,
          timestamp := timestamp, salt := salt }
      Except.ok (some row, db ++ [row]))

end SQLAlchemyNonceMixin

/-- The base64 alphabet character for a 6-bit index. -/
def b64char (n : Nat) : Char :=
  ("ABCDEFGHIJKLMNOPQRSTUVWXYZabcdefghijklmnopqrstuvwxyz0123456789+/".toList).getD n 'A'

/-- Base64 of a byte list, without line structure (the body of one
encoded line). -/
def b64body : List Nat → List Char
  | a :: b :: c :: rest =>
    b64char (a / 4) :: b64char ((a % 4) * 16 + b / 16) ::
      b64char ((b % 16) * 4 + c / 64) :: b64char (c % 64) :: b64body rest
  | [a, b] => [b64char (a / 4), b64char ((a % 4) * 16 + b / 16), b64char ((b % 16) * 4), '=']
  | [a] => [b64char (a / 4), b64char ((a % 4) * 16), '=', '=']
  | [] => []

/-- Embedding of `base64.encodebytes`: base64 in lines of at most 57 input
bytes (76 output characters), each line newline-terminated. -/
def encodebytes (bs : List Nat) : String :=
  match bs with
  | [] => ""
  | b :: rest =>
    String.mk (b64body ((b :: rest).take 57) ++ ['\n']) ++ encodebytes ((b :: rest).drop 57)
termination_by bs.length
decreasing_by simp [List.length_drop]; omega

/-- session.add + commit for an association row: an object whose primary
key is already present is updated in place, a new object is inserted. -/
def saveAssoc (db : List AssocRow) (a : AssocRow) : List AssocRow :=
  if db.any (fun r => r.id == a.id) then db.map (fun r => if r.id == a.id then a else r)
  else db ++ [a]

namespace SQLAlchemyAssociationMixin

/-- Embedding of `Association.store`: look the row up by `(server_url,
handle)` under a `try/except IndexError` whose handler constructs a fresh
instance; then assign `secret` (base64 of the raw secret), `issued`,
`lifetime` and `assoc_type` on whatever the lookup produced, and save.  In
Python, when the scalar query found nothing the local is `None` and the
first attribute assignment raises `AttributeError`, which the embedding
returns as `Except.error`. -/
def store (db : List AssocRow) (server_url : String) (association : OpenIDAssociation) :
    Except PyExc (List AssocRow) :=
  match tryIndexError
      (sessionScalar db (fun r => r.server_url == server_url && r.handle == association.handle))
      (fun _ =>
        Except.ok (some
          { id := Int.ofNat db.length + 1, server_url := server_url,
            handle := association.handle, secret := "", issued := 0,
            lifetime := 0, assoc_type := "" })) with
  | Except.error e => Except.error e
  | Except.ok none => Except.error PyExc.attributeError
  | Except.ok (some assoc) =>
    let assoc2 : AssocRow :=
      { assoc with
        secret := encodebytes association.secret,
        issued := association.issued,
        lifetime := association.lifetime,
        assoc_type := association.assoc_type }
    Except.ok (saveAssoc db assoc2)

/-- Embedding of `Association.get`: a scalar lookup whose `filter_by`
keywords are abstracted into one boolean predicate over the row (an AND of
field equalities in the source's callers). -/
def get (db : List AssocRow) (kw : AssocRow → Bool) : Option AssocRow :=
  List.find? kw db

end SQLAlchemyAssociationMixin

namespace SQLAlchemyCodeMixin

/-- Embedding of `Code.get_code`: scalar lookup by the `code` column. -/
def get_code (db : List CodeRow) (code : String) : Option CodeRow :=
  List.find? (fun r => r.code == code) db

end SQLAlchemyCodeMixin

namespace SQLAlchemyPartialMixin

/-- Embedding of `Partial.load`: scalar lookup by the `token` column. -/
def load (db : List PartialRow) (token : String) : Option PartialRow :=
  List.find? (fun r => r.token == token) db

/-- Embedding of `Partial.destroy`: load by token; when that found a row
(a row object is truthy, `None` is falsy), delete it from the session. -/
def destroy (db : List PartialRow) (token : String) : List PartialRow :=
  match load db token with
  | some p => db.erase p
  | none => db

end SQLAlchemyPartialMixin

/-- A Python class object: the store's `IntegrityError` class, a strict
subclass of some class, or any other class (tagged by name). -/
inductive PyClass where
  | integrityError
  | subclassOf (parent : PyClass)
  | otherClass (nm : String)
deriving DecidableEq, Repr

/-- An exception instance: what `exception.__class__` returns. -/
structure PyException where
  cls : PyClass
deriving DecidableEq, Repr

namespace BaseSQLAlchemyStorage

/-- Embedding of `is_integrity_error`: `exception.__class__ is
IntegrityError`, an identity test on the class object itself, which a
strict subclass never passes. -/
def is_integrity_error (exception : PyException) : Bool :=
  exception.cls == PyClass.integrityError

end BaseSQLAlchemyStorage

/-- A JSON value, the data model `json.dumps`/`json.loads` works over.
Numbers are modelled as integers (the adapter's columns store mappings of
strings; IEEE floats are outside this shallow embedding). An object is its
member list in insertion order, as Python dicts preserve it. -/
inductive JValue where
  | null
  | bool (b : Bool)
  | int (n : Int)
  | str (s : String)
  | arr (items : List JValue)
  | obj (members : List (String × JValue))

/-- Lowercase hex digit, as Python's json emits in its escapes. -/
def hexDigitChar (n : Nat) : Char :=
  ("0123456789abcdef".toList).getD n '0'

/-- Four hex digits of a value below 0x10000. -/
def hex4 (n : Nat) : List Char :=
  [hexDigitChar (n / 4096 % 16), hexDigitChar (n / 256 % 16),
   hexDigitChar (n / 16 % 16), hexDigitChar (n % 16)]

/-- A backslash-u escape: one for code points in the basic plane, a
surrogate pair for the rest, exactly as Python's `ensure_ascii` output. -/
def uEscape (n : Nat) : List Char :=
  if n < 65536 then '\\' :: 'u' :: hex4 n
  else
    '\\' :: 'u' :: hex4 (55296 + (n - 65536) / 1024) ++
      '\\' :: 'u' :: hex4 (56320 + (n - 65536) % 1024)

/-- How `json.dumps` writes one string character (default `ensure_ascii`):
the two-character escapes of its escape table, backslash-u for the other
control and non-ASCII characters, the character itself otherwise. -/
def escapeChar (c : Char) : List Char :=
  if c = '"' then ['\\', '"']
  else if c = '\\' then ['\\', '\\']
  else if c = '\x08' then ['\\', 'b']
  else if c = '\x0c' then ['\\', 'f']
  else if c = '\n' then ['\\', 'n']
  else if c = '\r' then ['\\', 'r']
  else if c = '\t' then ['\\', 't']
  else if c.toNat < 32 ∨ 126 < c.toNat then uEscape c.toNat
  else [c]

/-- The escaped characters of a string body. -/
def encodeStringBody : List Char → List Char
  | [] => []
  | c :: cs => escapeChar c ++ encodeStringBody cs

/-- A JSON string literal: quote, escaped body, quote. -/
def encodeString (s : String) : List Char :=
  '"' :: encodeStringBody s.data ++ ['"']

/-- Decimal digits of a natural number, most significant first. -/
def natDigits (n : Nat) : List Char :=
  if _h : n < 10 then [hexDigitChar n]
  else natDigits (n / 10) ++ [hexDigitChar (n % 10)]
termination_by n
decreasing_by exact Nat.div_lt_self (by omega) (by omega)

/-- How `json.dumps` writes an integer: Python's `str(int)` format. -/
def encodeInt : Int → List Char
  | Int.ofNat m => natDigits m
  | Int.negSucc m => '-' :: natDigits (m + 1)

mutual

/-- Embedding of `json.dumps(value)` with the default separators
(", " and ": ") and no indent, as `JSONPickler.dumps` calls it. -/
def encodeValue : JValue → List Char
  | JValue.null => ['n', 'u', 'l', 'l']
  | JValue.bool true => ['t', 'r', 'u', 'e']
  | JValue.bool false => ['f', 'a', 'l', 's', 'e']
  | JValue.int n => encodeInt n
  | JValue.str s => encodeString s
  | JValue.arr [] => ['[', ']']
  | JValue.arr (x :: xs) => '[' :: (encodeValue x ++ encodeItemsTail xs) ++ [']']
  | JValue.obj [] => ['\x7b', '\x7d']
  | JValue.obj ((k, v) :: kvs) =>
    '\x7b' :: (encodeString k ++ ':' :: ' ' :: encodeValue v ++ encodeMembersTail kvs) ++ ['\x7d']

/-- The ", item" tail of an encoded array. -/
def encodeItemsTail : List JValue → List Char
  | [] => []
  | x :: xs => ',' :: ' ' :: encodeValue x ++ encodeItemsTail xs

/-- The ", key: value" tail of an encoded object. -/
def encodeMembersTail : List (String × JValue) → List Char
  | [] => []
  | (k, v) :: kvs =>
    ',' :: ' ' :: encodeString k ++ ':' :: ' ' :: encodeValue v ++ encodeMembersTail kvs

end

/-- JSON's whitespace characters. -/
def isJsonWs (c : Char) : Bool :=
  c = ' ' || c = '\t' || c = '\n' || c = '\r'

/-- Drop leading JSON whitespace, as the decoder does between tokens. -/
def skipWs : List Char → List Char
  | [] => []
  | c :: cs => if isJsonWs c then skipWs cs else c :: cs

/-- The value of a hex digit; `json.loads` accepts both cases. -/
def hexVal (c : Char) : Option Nat :=
  if '0' ≤ c ∧ c ≤ '9' then some (c.toNat - 48)
  else if 'a' ≤ c ∧ c ≤ 'f' then some (c.toNat - 97 + 10)
  else if 'A' ≤ c ∧ c ≤ 'F' then some (c.toNat - 65 + 10)
  else none

/-- Four hex digits after a backslash-u. -/
def parseHex4 : List Char → Option (Nat × List Char)
  | c1 :: c2 :: c3 :: c4 :: rest =>
    match hexVal c1, hexVal c2, hexVal c3, hexVal c4 with
    | some h1, some h2, some h3, some h4 =>
      some (((h1 * 16 + h2) * 16 + h3) * 16 + h4, rest)
    | _, _, _, _ => none
  | _ => none

/-- One string escape after the backslash, as the decoder reads it: the
short escapes, or backslash-u with surrogate-pair recombination.  A lone
surrogate would not be a Lean `Char`; the model rejects it. -/
def parseEscape : List Char → Option (Char × List Char)
  | [] => none
  | c :: rest =>
    if c = '"' then some ('"', rest)
    else if c = '\\' then some ('\\', rest)
    else if c = '/' then some ('/', rest)
    else if c = 'b' then some ('\x08', rest)
    else if c = 'f' then some ('\x0c', rest)
    else if c = 'n' then some ('\n', rest)
    else if c = 'r' then some ('\r', rest)
    else if c = 't' then some ('\t', rest)
    else if c = 'u' then
      match parseHex4 rest with
      | some (n, r1) =>
        if 55296 ≤ n ∧ n < 56320 then
          match r1 with
          | '\\' :: 'u' :: r2 =>
            (match parseHex4 r2 with
             | some (m, r3) =>
               if 56320 ≤ m ∧ m < 57344 then
                 some (Char.ofNat (65536 + (n - 55296) * 1024 + (m - 56320)), r3)
               else none
             | none => none)
          | _ => none
        else some (Char.ofNat n, r1)
      | none => none
    else none

/-- The body of a string literal up to its closing quote (strict mode: an
unescaped control character is an error).  Fuel falls once per decoded
character; the callers hand it the remaining input's length plus one. -/
def parseStringBody : Nat → List Char → Option (List Char × List Char)
  | 0, _ => none
  | _ + 1, [] => none
  | fuel + 1, c :: rest =>
    if c = '"' then some ([], rest)
    else if c = '\\' then
      match parseEscape rest with
      | some (d, r1) =>
        (match parseStringBody fuel r1 with
         | some (cs, r2) => some (d :: cs, r2)
         | none => none)
      | none => none
    else if c.toNat < 32 then none
    else
      match parseStringBody fuel rest with
      | some (cs, r2) => some (c :: cs, r2)
      | none => none

/-- Consume decimal digits, folding them onto `acc`. -/
def parseDigits (acc : Nat) : List Char → Nat × List Char
  | [] => (acc, [])
  | c :: rest =>
    if c.isDigit then parseDigits (acc * 10 + (c.toNat - 48)) rest
    else (acc, c :: rest)

/-- An integer literal: optional minus, then at least one digit. -/
def parseIntTok (input : List Char) : Option (Int × List Char) :=
  match input with
  | [] => none
  | c :: rest =>
    if c = '-' then
      match rest with
      | [] => none
      | d :: rest2 =>
        if d.isDigit then
          match parseDigits (d.toNat - 48) rest2 with
          | (n, r) => some (- Int.ofNat n, r)
        else none
    else if c.isDigit then
      match parseDigits (c.toNat - 48) rest with
      | (n, r) => some (Int.ofNat n, r)
    else none

mutual

/-- Embedding of the decoder behind `json.loads`: skip whitespace and read
one value.  Fuel falls on the way into every nested value; the entry point
hands it more fuel than the input has characters, which the round-trip
theorem shows is always enough for the encoder's output. -/
def parseValue (fuel : Nat) (input : List Char) : Option (JValue × List Char) :=
  match fuel with
  | 0 => none
  | fuel + 1 => parseValueCore fuel (skipWs input)
termination_by (fuel, 0)

/-- Dispatch on the first significant character: the keyword literals,
a string, an array, an object, else a number. -/
def parseValueCore (fuel : Nat) (input : List Char) : Option (JValue × List Char) :=
  match input with
  | [] => none
  | c :: rest =>
    if c = 'n' then
      match rest with
      | 'u' :: 'l' :: 'l' :: r => some (JValue.null, r)
      | _ => none
    else if c = 't' then
      match rest with
      | 'r' :: 'u' :: 'e' :: r => some (JValue.bool true, r)
      | _ => none
    else if c = 'f' then
      match rest with
      | 'a' :: 'l' :: 's' :: 'e' :: r => some (JValue.bool false, r)
      | _ => none
    else if c = '"' then
      match parseStringBody (rest.length + 1) rest with
      | some (cs, r) => some (JValue.str (String.mk cs), r)
      | none => none
    else if c = '[' then parseArrayRest fuel rest
    else if c = '\x7b' then parseObjectRest fuel rest
    else
      match parseIntTok (c :: rest) with
      | some (n, r) => some (JValue.int n, r)
      | none => none
termination_by (fuel, 3)

/-- The inside of an array after its opening bracket. -/
def parseArrayRest (fuel : Nat) (input : List Char) : Option (JValue × List Char) :=
  match skipWs input with
  | [] => none
  | c :: r =>
    if c = ']' then some (JValue.arr [], r)
    else
      match parseValue fuel input with
      | some (x, r1) =>
        (match parseItems fuel r1 with
         | some (xs, r2) => some (JValue.arr (x :: xs), r2)
         | none => none)
      | none => none
termination_by (fuel, 2)

/-- After one array element: a closing bracket ends the array, a comma
precedes the next element. -/
def parseItems (fuel : Nat) (input : List Char) : Option (List JValue × List Char) :=
  match fuel with
  | 0 => none
  | fuel + 1 =>
    match skipWs input with
    | ']' :: rest => some ([], rest)
    | ',' :: rest =>
      (match parseValue fuel rest with
       | some (x, r1) =>
         (match parseItems fuel r1 with
          | some (xs, r2) => some (x :: xs, r2)
          | none => none)
       | none => none)
    | _ => none
termination_by (fuel, 1)

/-- The inside of an object after its opening brace. -/
def parseObjectRest (fuel : Nat) (input : List Char) : Option (JValue × List Char) :=
  match skipWs input with
  | '"' :: r =>
    (match parseStringBody (r.length + 1) r with
     | some (k, r1) =>
       (match skipWs r1 with
        | ':' :: r2 =>
          (match parseValue fuel r2 with
           | some (v, r3) =>
             (match parseMembers fuel r3 with
              | some (kvs, r4) => some (JValue.obj ((String.mk k, v) :: kvs), r4)
              | none => none)
           | none => none)
        | _ => none)
     | none => none)
  | c :: r => if c = '\x7d' then some (JValue.obj [], r) else none
  | [] => none
termination_by (fuel, 2)

/-- After one object member: a closing brace ends the object, a comma
precedes the next key. -/
def parseMembers (fuel : Nat) (input : List Char) :
    Option (List (String × JValue) × List Char) :=
  match fuel with
  | 0 => none
  | fuel + 1 =>
    match skipWs input with
    | '\x7d' :: rest => some ([], rest)
    | ',' :: rest =>
      (match skipWs rest with
       | '"' :: r =>
         (match parseStringBody (r.length + 1) r with
          | some (k, r1) =>
            (match skipWs r1 with
             | ':' :: r2 =>
               (match parseValue fuel r2 with
                | some (v, r3) =>
                  (match parseMembers fuel r3 with
                   | some (kvs, r4) => some ((String.mk k, v) :: kvs, r4)
                   | none => none)
                | none => none)
             | _ => none)
          | none => none)
       | _ => none)
    | _ => none
termination_by (fuel, 1)

end

namespace JSONPickler

/-- Embedding of `JSONPickler.dumps(value, *args, **kwargs)`: the body is
`json.dumps(value)` alone, so the extra positional arguments do not reach
the encoding. -/
def dumps {α : Type} (value : JValue) (_args : List α) : String :=
  String.mk (encodeValue value)

/-- Embedding of `JSONPickler.loads(value)`: `json.loads`, which decodes
one value and accepts only trailing whitespace after it. -/
def loads (value : String) : Option JValue :=
  match parseValue (value.data.length + 1) value.data with
  | some (v, rest) => if skipWs rest = [] then some v else none
  | none => none

end JSONPickler

/-- The input does not begin with a decimal digit: the shape of every
continuation the encoder can put after an integer literal (nothing, or a
separator), under which the digit scanner stops exactly at the literal's
end. -/
def headNotDigit : List Char → Prop
  | [] => True
  | c :: _ => c.isDigit = false

/-- A try/except around a body that completes normally yields the body's
value: the handler is not consulted. -/
theorem tryIndexError_ok {α : Type} (x : α) (h : Unit → Except PyExc α) :
    tryIndexError (Except.ok x) h = Except.ok x := rfl

/-- What `get_social_auth` computes: the scalar query's result, wrapped in
a normal completion (the `except IndexError` handler is dead code). -/
theorem get_social_auth_eq (db : List UserSocialAuth) (provider : String) (uid : PyVal) :
    SQLAlchemyUserMixin.get_social_auth db provider uid =
      Except.ok (List.find? (fun r => r.provider == provider && r.uid == pyStr uid) db) := rfl

/-- Claim C1: `allowed_to_disconnect` returns false exactly when removing
the designated link (by association id, else by backend name) would leave
zero remaining links for the user and the user's `has_usable_password()`
returns false; with a usable password, with at least one remaining link,
or with no `has_usable_password` attribute at all, it returns true. -/
theorem allowed_to_disconnect_false_iff (db : List UserSocialAuth) (user : PyUser)
    (backend_name : String) (association_id : Option Int) :
    SQLAlchemyUserMixin.allowed_to_disconnect db user backend_name association_id = false ↔
      (SQLAlchemyUserMixin.remaining_links db user backend_name association_id = 0 ∧
        user.has_usable_password = some false) := by
  cases h : user.has_usable_password with
  | none =>
    simp [SQLAlchemyUserMixin.allowed_to_disconnect, h]
  | some b =>
    cases b <;>
      simp [SQLAlchemyUserMixin.allowed_to_disconnect,
        SQLAlchemyUserMixin.remaining_links, h]

/-- Claim C2 (the code at the failing input): on a store with no matching
nonce row, `Nonce.use` returns Python `None` and creates no row at all,
because `session.scalar` returns `None` rather than raising the
`IndexError` the create branch is guarded by. -/
theorem nonce_use_missing_creates_nothing :
    SQLAlchemyNonceMixin.use [] "https://server.example" 1234567890 "salt42" =
      Except.ok (none, []) := rfl

/-- Claim C3 (the code at the failing input): on a store with no row for
the `(server_url, handle)` key, `Association.store` raises
`AttributeError` (the lookup local is `None`, and `assoc.secret = ...`
fails) instead of creating a row. -/
theorem association_store_missing_raises :
    SQLAlchemyAssociationMixin.store [] "https://server.example"
      { handle := "hdl", secret := [1, 2, 3], issued := 10,
        lifetime := 3600, assoc_type := "HMAC-SHA1" } =
      Except.error PyExc.attributeError := rfl

/-- Claim C4: after `create_social_auth`, `get_social_auth` with the same
provider and uid returns a link whose `provider` and `uid` fields equal
the created link's, for any prior table contents and any uid value
(string or not). -/
theorem create_social_auth_then_get (db : List UserSocialAuth) (user : PyUser)
    (uid : PyVal) (provider : String) :
    ∃ r : UserSocialAuth,
      SQLAlchemyUserMixin.get_social_auth
          (SQLAlchemyUserMixin.create_social_auth db user uid provider).2 provider uid =
        Except.ok (some r) ∧
      r.provider = (SQLAlchemyUserMixin.create_social_auth db user uid provider).1.provider ∧
      r.uid = (SQLAlchemyUserMixin.create_social_auth db user uid provider).1.uid := by
  have hsome : (List.find? (fun r => r.provider == provider && r.uid == pyStr uid)
      (db ++ [{ id := Int.ofNat db.length + 1, provider := provider, uid := pyStr uid,
                user_id := user.id }])).isSome :=
    List.find?_isSome.mpr
      ⟨{ id := Int.ofNat db.length + 1, provider := provider, uid := pyStr uid,
         user_id := user.id },
        List.mem_append_right db (List.mem_singleton_self _), by simp⟩
  obtain ⟨r, hr⟩ := Option.isSome_iff_exists.mp hsome
  have hfields := List.find?_some hr
  simp only [Bool.and_eq_true, beq_iff_eq] at hfields
  refine ⟨r, ?_, hfields.1, hfields.2⟩
  rw [get_social_auth_eq]
  simp only [SQLAlchemyUserMixin.create_social_auth]
  rw [hr]

/-- Claim C6: every single-row lookup returns none (and no error) when no
row matches its key: `get_social_auth` by (provider, uid),
`Association.get` by its filter, `Code.get_code` by code, and
`Partial.load` by token. -/
theorem lookups_return_none
    (udb : List UserSocialAuth) (provider : String) (uid : PyVal)
    (adb : List AssocRow) (kw : AssocRow → Bool)
    (cdb : List CodeRow) (code : String)
    (pdb : List PartialRow) (token : String)
    (hu : ∀ r ∈ udb, ¬(r.provider = provider ∧ r.uid = pyStr uid))
    (ha : ∀ r ∈ adb, kw r = false)
    (hc : ∀ r ∈ cdb, r.code ≠ code)
    (hp : ∀ r ∈ pdb, r.token ≠ token) :
    SQLAlchemyUserMixin.get_social_auth udb provider uid = Except.ok none ∧
    SQLAlchemyAssociationMixin.get adb kw = none ∧
    SQLAlchemyCodeMixin.get_code cdb code = none ∧
    SQLAlchemyPartialMixin.load pdb token = none := by
  refine ⟨?_, ?_, ?_, ?_⟩
  · have hnone : List.find?
        (fun r => r.provider == provider && r.uid == pyStr uid) udb = none := by
      rw [List.find?_eq_none]
      intro r hr
      have hne := hu r hr
      simp only [Bool.and_eq_true, beq_iff_eq, not_and]
      intro h1 h2
      exact hne ⟨h1, h2⟩
    rw [get_social_auth_eq, hnone]
  · exact List.find?_eq_none.mpr (fun r hr => by simp [ha r hr])
  · exact List.find?_eq_none.mpr (fun r hr => by simp [hc r hr])
  · exact List.find?_eq_none.mpr (fun r hr => by simp [hp r hr])

/-- Claim C6 witness: the four lookups at concrete keys over stores with
no matching row. -/
theorem lookups_return_none_witness :
    SQLAlchemyUserMixin.get_social_auth
        [{ id := 1, provider := "github", uid := "7", user_id := 1 }] "github"
        (PyVal.str "42") = Except.ok none ∧
    SQLAlchemyAssociationMixin.get [] (fun _ => false) = none ∧
    SQLAlchemyCodeMixin.get_code [] "c0de" = none ∧
    SQLAlchemyPartialMixin.load [] "tok3n" = none :=
  lookups_return_none
    [{ id := 1, provider := "github", uid := "7", user_id := 1 }] "github" (PyVal.str "42")
    [] (fun _ => false) [] "c0de" [] "tok3n"
    (by intro r hr; simp at hr; simp [hr, pyStr]) (by simp) (by simp) (by simp)

/-- Claim C7: `is_integrity_error` holds exactly when the exception's class
is the `IntegrityError` class itself; an instance of a strict subclass of
`IntegrityError` is classified as not an integrity error. -/
theorem is_integrity_error_type_equality :
    (∀ e : PyException,
      BaseSQLAlchemyStorage.is_integrity_error e = true ↔ e.cls = PyClass.integrityError) ∧
    BaseSQLAlchemyStorage.is_integrity_error
      { cls := PyClass.subclassOf PyClass.integrityError } = false := by
  refine ⟨fun e => ?_, rfl⟩
  simp [BaseSQLAlchemyStorage.is_integrity_error]

/-- Claim C8: `_save_instance` registers the instance, commits and flushes
at once — afterwards nothing is pending and the instance is durably at the
end of the committed rows — and returns the very instance it was given. -/
theorem save_instance_commits_and_returns {α : Type} (s : SessionState α) (x : α) :
    (SQLAlchemyMixin.save_instance s x).1 = x ∧
    (SQLAlchemyMixin.save_instance s x).2.pending = [] ∧
    (SQLAlchemyMixin.save_instance s x).2.committed = s.committed ++ s.pending ++ [x] := by
  refine ⟨rfl, rfl, ?_⟩
  simp [SQLAlchemyMixin.save_instance, SQLAlchemyMixin.COMMIT_SESSION,
    Session.add, Session.commit, Session.flush]

/-- Claim C9: `Partial.destroy` deletes the loaded row when the token
matches one (and that row indeed bears the token), and leaves the store
unchanged, raising nothing, when no row has the token. -/
theorem destroy_deletes_or_noop (db : List PartialRow) (token : String) :
    (SQLAlchemyPartialMixin.load db token = none →
      SQLAlchemyPartialMixin.destroy db token = db) ∧
    (∀ p, SQLAlchemyPartialMixin.load db token = some p →
      p.token = token ∧ SQLAlchemyPartialMixin.destroy db token = db.erase p) := by
  constructor
  · intro h
    simp [SQLAlchemyPartialMixin.destroy, h]
  · intro p hp
    have ht := List.find?_some hp
    simp only [beq_iff_eq] at ht
    refine ⟨ht, ?_⟩
    show (match SQLAlchemyPartialMixin.load db token with
      | some q => db.erase q
      | none => db) = db.erase p
    rw [hp]

/-- Claim C10: in `get_social_auth_for_user` a falsy `provider` (the empty
string) or a falsy `id` (zero) skips that narrowing filter entirely, so
the result equals the call with the argument omitted. -/
theorem get_social_auth_for_user_falsy_skips (db : List UserSocialAuth) (user : PyUser)
    (provider : Option String) (id : Option Int) :
    SQLAlchemyUserMixin.get_social_auth_for_user db user (some "") id =
      SQLAlchemyUserMixin.get_social_auth_for_user db user none id ∧
    SQLAlchemyUserMixin.get_social_auth_for_user db user provider (some 0) =
      SQLAlchemyUserMixin.get_social_auth_for_user db user provider none := by
  constructor <;> simp [SQLAlchemyUserMixin.get_social_auth_for_user]

/-- A character's code point is a Unicode scalar value: below the
surrogate block or above it and below 0x110000. -/
theorem char_toNat_valid (c : Char) :
    c.toNat < 55296 ∨ (57343 < c.toNat ∧ c.toNat < 1114112) := by
  rcases c.valid with h | ⟨h1, h2⟩
  · left
    simpa [Char.toNat, UInt32.lt_def, BitVec.lt_def] using h
  · right
    constructor
    · simpa [Char.toNat, UInt32.lt_def, BitVec.lt_def] using h1
    · simpa [Char.toNat, UInt32.lt_def, BitVec.lt_def] using h2

/-- The decoder's hex-digit reader inverts the encoder's hex digit. -/
theorem hexVal_hexDigitChar : ∀ k, k < 16 → hexVal (hexDigitChar k) = some k := by decide

/-- Reading four hex digits inverts writing them, for basic-plane values. -/
theorem parseHex4_hex4 (n : Nat) (h : n < 65536) (r : List Char) :
    parseHex4 (hex4 n ++ r) = some (n, r) := by
  have e1 := hexVal_hexDigitChar (n / 4096 % 16) (Nat.mod_lt _ (by omega))
  have e2 := hexVal_hexDigitChar (n / 256 % 16) (Nat.mod_lt _ (by omega))
  have e3 := hexVal_hexDigitChar (n / 16 % 16) (Nat.mod_lt _ (by omega))
  have e4 := hexVal_hexDigitChar (n % 16) (Nat.mod_lt _ (by omega))
  have harith : ((n / 4096 % 16 * 16 + n / 256 % 16) * 16 + n / 16 % 16) * 16 + n % 16 = n := by
    omega
  simp [hex4, parseHex4, e1, e2, e3, e4, harith]

/-- Reading the rest of a backslash-u escape. -/
theorem parseEscape_u (X : List Char) : parseEscape ('u' :: X) =
    match parseHex4 X with
    | some (n, r1) =>
      if 55296 ≤ n ∧ n < 56320 then
        match r1 with
        | '\\' :: 'u' :: r2 =>
          (match parseHex4 r2 with
           | some (m, r3) =>
             if 56320 ≤ m ∧ m < 57344 then
               some (Char.ofNat (65536 + (n - 55296) * 1024 + (m - 56320)), r3)
             else none
           | none => none)
        | _ => none
      else some (Char.ofNat n, r1)
    | none => none := rfl

/-- Each character the encoder writes into a string body is either kept
verbatim (and is then neither a quote, a backslash nor a control
character) or written as a backslash escape the decoder reads back to
exactly that character. -/
theorem escapeChar_spec (c : Char) :
    (escapeChar c = [c] ∧ c ≠ '"' ∧ c ≠ '\\' ∧ 32 ≤ c.toNat) ∨
    (∃ e, escapeChar c = '\\' :: e ∧ ∀ r, parseEscape (e ++ r) = some (c, r)) := by
  by_cases h1 : c = '"'
  · subst h1; exact Or.inr ⟨['"'], rfl, fun r => rfl⟩
  by_cases h2 : c = '\\'
  · subst h2; exact Or.inr ⟨['\\'], rfl, fun r => rfl⟩
  by_cases h3 : c = '\x08'
  · subst h3; exact Or.inr ⟨['b'], rfl, fun r => rfl⟩
  by_cases h4 : c = '\x0c'
  · subst h4; exact Or.inr ⟨['f'], rfl, fun r => rfl⟩
  by_cases h5 : c = '\n'
  · subst h5; exact Or.inr ⟨['n'], rfl, fun r => rfl⟩
  by_cases h6 : c = '\r'
  · subst h6; exact Or.inr ⟨['r'], rfl, fun r => rfl⟩
  by_cases h7 : c = '\t'
  · subst h7; exact Or.inr ⟨['t'], rfl, fun r => rfl⟩
  by_cases h8 : c.toNat < 32 ∨ 126 < c.toNat
  · have he : escapeChar c = uEscape c.toNat := by
      simp [escapeChar, h1, h2, h3, h4, h5, h6, h7, h8]
    by_cases h9 : c.toNat < 65536
    · have hu : uEscape c.toNat = '\\' :: ('u' :: hex4 c.toNat) := by
        simp [uEscape, h9]
      refine Or.inr ⟨'u' :: hex4 c.toNat, by rw [he, hu], fun r => ?_⟩
      have hns : ¬(55296 ≤ c.toNat ∧ c.toNat < 56320) := by
        rcases char_toNat_valid c with h | ⟨h, _⟩ <;> omega
      rw [show ('u' :: hex4 c.toNat) ++ r = 'u' :: (hex4 c.toNat ++ r) from rfl,
        parseEscape_u, parseHex4_hex4 c.toNat h9 r]
      simp [hns]
    · have hlt : c.toNat < 1114112 := by
        rcases char_toNat_valid c with h | ⟨_, h⟩ <;> omega
      have hhi : 55296 + (c.toNat - 65536) / 1024 < 65536 := by omega
      have hlo : 56320 + (c.toNat - 65536) % 1024 < 65536 := by omega
      have hu : uEscape c.toNat =
          '\\' :: ('u' :: (hex4 (55296 + (c.toNat - 65536) / 1024) ++
            ('\\' :: ('u' :: hex4 (56320 + (c.toNat - 65536) % 1024))))) := by
        simp [uEscape, h9]
      refine Or.inr ⟨'u' :: (hex4 (55296 + (c.toNat - 65536) / 1024) ++
        ('\\' :: ('u' :: hex4 (56320 + (c.toNat - 65536) % 1024)))), by rw [he, hu],
        fun r => ?_⟩
      have hs1 : 55296 ≤ 55296 + (c.toNat - 65536) / 1024 ∧
          55296 + (c.toNat - 65536) / 1024 < 56320 := by omega
      have hs2 : 56320 ≤ 56320 + (c.toNat - 65536) % 1024 ∧
          56320 + (c.toNat - 65536) % 1024 < 57344 := by omega
      have harith : 65536 + (55296 + (c.toNat - 65536) / 1024 - 55296) * 1024 +
          (56320 + (c.toNat - 65536) % 1024 - 56320) = c.toNat := by omega
      rw [show ('u' :: (hex4 (55296 + (c.toNat - 65536) / 1024) ++
            ('\\' :: ('u' :: hex4 (56320 + (c.toNat - 65536) % 1024))))) ++ r =
          'u' :: (hex4 (55296 + (c.toNat - 65536) / 1024) ++
            ('\\' :: ('u' :: (hex4 (56320 + (c.toNat - 65536) % 1024) ++ r)))) by simp,
        parseEscape_u, parseHex4_hex4 _ hhi]
      simp only [hs1, and_self, if_true]
      rw [parseHex4_hex4 _ hlo]
      simp only [hs2, and_self, if_true, harith, Char.ofNat_toNat]
  · push_neg at h8
    exact Or.inl ⟨by simp [escapeChar, h1, h2, h3, h4, h5, h6, h7, h8.1.not_lt, h8], h1, h2,
      h8.1⟩

/-- A decimal digit character has code point between 48 and 57. -/
theorem isDigit_toNat (c : Char) (h : c.isDigit = true) : 48 ≤ c.toNat ∧ c.toNat ≤ 57 := by
  simp only [Char.isDigit, Bool.and_eq_true, decide_eq_true_eq] at h
  obtain ⟨h1, h2⟩ := h
  constructor
  · simpa [Char.toNat, UInt32.le_def, BitVec.le_def] using h1
  · simpa [Char.toNat, UInt32.le_def, BitVec.le_def] using h2

/-- The encoder's digit characters are digits and decode to their value. -/
theorem hexDigitChar_digit : ∀ k, k < 10 →
    (hexDigitChar k).isDigit = true ∧ (hexDigitChar k).toNat - 48 = k := by decide

/-- A digit character differs from any non-digit character. -/
theorem isDigit_ne (c : Char) (h : c.isDigit = true) (d : Char) (hd : d.isDigit = false) :
    c ≠ d := by
  intro e
  rw [e, hd] at h
  exact Bool.false_ne_true h

/-- The decimal expansion of a natural number is never empty. -/
theorem natDigits_ne_nil (n : Nat) : natDigits n ≠ [] := by
  rw [natDigits.eq_def]
  split <;> simp

/-- Every character of a decimal expansion is a digit. -/
theorem natDigits_digits (n : Nat) : ∀ c ∈ natDigits n, c.isDigit = true := by
  induction n using natDigits.induct with
  | case1 n h =>
    intro c hc
    rw [natDigits.eq_def] at hc
    simp only [h, dite_true] at hc
    simp only [List.mem_singleton] at hc
    rw [hc]
    exact (hexDigitChar_digit n h).1
  | case2 n h ih =>
    intro c hc
    rw [natDigits.eq_def] at hc
    simp only [h, dite_false] at hc
    rw [List.mem_append] at hc
    rcases hc with hc | hc
    · exact ih c hc
    · rw [List.mem_singleton] at hc
      rw [hc]
      exact (hexDigitChar_digit (n % 10) (Nat.mod_lt _ (by omega))).1

/-- Folding the digit values of a decimal expansion onto an accumulator. -/
theorem natDigits_foldl (n : Nat) : ∀ acc : Nat,
    (natDigits n).foldl (fun a c => a * 10 + (c.toNat - 48)) acc =
      acc * 10 ^ (natDigits n).length + n := by
  induction n using natDigits.induct with
  | case1 n h =>
    intro acc
    rw [natDigits.eq_def]
    simp only [h, dite_true, List.foldl_cons, List.foldl_nil, List.length_singleton,
      pow_one, (hexDigitChar_digit n h).2]
  | case2 n h ih =>
    intro acc
    rw [natDigits.eq_def]
    simp only [h, dite_false, List.foldl_append, List.foldl_cons, List.foldl_nil,
      List.length_append, List.length_singleton]
    rw [ih acc, (hexDigitChar_digit (n % 10) (Nat.mod_lt _ (by omega))).2,
      pow_succ, ← mul_assoc]
    generalize acc * 10 ^ (natDigits (n / 10)).length = Q
    omega

/-- The digit scanner stops immediately on a non-digit head. -/
theorem parseDigits_stop (acc : Nat) (rest : List Char) (h : headNotDigit rest) :
    parseDigits acc rest = (acc, rest) := by
  cases rest with
  | nil => rfl
  | cons c cs =>
    have hc : c.isDigit = false := h
    simp [parseDigits, hc]

/-- The digit scanner consumes exactly a block of digits, folding their
values, and stops at a non-digit continuation. -/
theorem parseDigits_append (ds : List Char) : ∀ (acc : Nat) (rest : List Char),
    (∀ c ∈ ds, c.isDigit = true) → headNotDigit rest →
    parseDigits acc (ds ++ rest) =
      (ds.foldl (fun a c => a * 10 + (c.toNat - 48)) acc, rest) := by
  induction ds with
  | nil =>
    intro acc rest _ hr
    simpa using parseDigits_stop acc rest hr
  | cons d ds ih =>
    intro acc rest hd hr
    have hdd : d.isDigit = true := hd d (by simp)
    simp only [List.cons_append, parseDigits, hdd, if_true, List.foldl_cons]
    exact ih _ rest (fun c hc => hd c (by simp [hc])) hr

/-- Reading an integer literal inverts writing one, whenever the
continuation does not begin with a digit. -/
theorem parseIntTok_encodeInt (n : Int) (rest : List Char) (h : headNotDigit rest) :
    parseIntTok (encodeInt n ++ rest) = some (n, rest) := by
  cases n with
  | ofNat m =>
    obtain ⟨d, ds, hds⟩ := List.exists_cons_of_ne_nil (natDigits_ne_nil m)
    have hd : d.isDigit = true := natDigits_digits m d (by rw [hds]; simp)
    have hne : d ≠ '-' := isDigit_ne d hd '-' (by decide)
    have hfold : (natDigits m).foldl (fun a c => a * 10 + (c.toNat - 48)) 0 = m := by
      rw [natDigits_foldl]; simp
    rw [hds, List.foldl_cons] at hfold
    simp only [Nat.zero_mul, Nat.zero_add] at hfold
    rw [show encodeInt (Int.ofNat m) = natDigits m from rfl, hds]
    simp only [List.cons_append, parseIntTok, hne, if_false, hd, if_true]
    rw [parseDigits_append ds (d.toNat - 48) rest
      (fun c hc => natDigits_digits m c (by rw [hds]; simp [hc])) h, hfold]
  | negSucc m =>
    obtain ⟨d, ds, hds⟩ := List.exists_cons_of_ne_nil (natDigits_ne_nil (m + 1))
    have hd : d.isDigit = true := natDigits_digits (m + 1) d (by rw [hds]; simp)
    have hfold : (natDigits (m + 1)).foldl (fun a c => a * 10 + (c.toNat - 48)) 0 = m + 1 := by
      rw [natDigits_foldl]; simp
    rw [hds, List.foldl_cons] at hfold
    simp only [Nat.zero_mul, Nat.zero_add] at hfold
    rw [show encodeInt (Int.negSucc m) = '-' :: natDigits (m + 1) from rfl, hds]
    simp only [List.cons_append, parseIntTok, if_true, hd]
    rw [parseDigits_append ds (d.toNat - 48) rest
      (fun c hc => natDigits_digits (m + 1) c (by rw [hds]; simp [hc])) h, hfold]
    simp only [Option.some.injEq, Prod.mk.injEq, and_true]
    rw [Int.negSucc_eq]
    simp only [Int.ofNat_eq_coe]
    push_cast
    ring

/-- Reading a string body inverts writing one: the decoder consumes the
escaped characters and the closing quote and returns exactly the original
characters, for any fuel beyond the body's length. -/
theorem parseStringBody_encode (cs : List Char) : ∀ (fuel : Nat) (rest : List Char),
    cs.length < fuel →
    parseStringBody fuel (encodeStringBody cs ++ '"' :: rest) = some (cs, rest) := by
  induction cs with
  | nil =>
    intro fuel rest hf
    cases fuel with
    | zero => omega
    | succ f => simp [encodeStringBody, parseStringBody]
  | cons c cs ih =>
    intro fuel rest hf
    have hcs : cs.length < fuel - 1 := by simp at hf; omega
    cases fuel with
    | zero => omega
    | succ f =>
      rcases escapeChar_spec c with ⟨heq, hq, hbs, h32⟩ | ⟨e, heq, hpe⟩
      · have hlt : ¬ c.toNat < 32 := by omega
        rw [show encodeStringBody (c :: cs) = escapeChar c ++ encodeStringBody cs from rfl,
          heq]
        simp only [List.singleton_append, List.cons_append, List.append_assoc]
        simp [parseStringBody, hq, hbs, hlt, ih f rest (by simpa using hcs)]
      · rw [show encodeStringBody (c :: cs) = escapeChar c ++ encodeStringBody cs from rfl,
          heq]
        simp only [List.cons_append, List.append_assoc]
        simp [parseStringBody, hpe, ih f rest (by simpa using hcs)]

/-- Escaping a character writes at least one character. -/
theorem escapeChar_length (c : Char) : 1 ≤ (escapeChar c).length := by
  rcases escapeChar_spec c with ⟨heq, _, _, _⟩ | ⟨e, heq, _⟩ <;> simp [heq]

/-- Escaping a string never shortens it. -/
theorem encodeStringBody_length (cs : List Char) :
    cs.length ≤ (encodeStringBody cs).length := by
  induction cs with
  | nil => simp [encodeStringBody]
  | cons c cs ih =>
    have h1 := escapeChar_length c
    simp only [encodeStringBody, List.length_append, List.length_cons]
    omega

/-- Whitespace skipping keeps a non-whitespace head in place. -/
theorem skipWs_cons_not (c : Char) (cs : List Char) (h : isJsonWs c = false) :
    skipWs (c :: cs) = c :: cs := by simp [skipWs, h]

/-- Whitespace skipping drops a whitespace head. -/
theorem skipWs_cons_ws (c : Char) (cs : List Char) (h : isJsonWs c = true) :
    skipWs (c :: cs) = skipWs cs := by simp [skipWs, h]

/-- Whitespace skipping never lengthens the input. -/
theorem skipWs_length (l : List Char) : (skipWs l).length ≤ l.length := by
  induction l with
  | nil => simp [skipWs]
  | cons c cs ih =>
    by_cases h : isJsonWs c
    · rw [skipWs_cons_ws c cs h]; simp; omega
    · rw [skipWs_cons_not c cs (by simpa using h)]

/-- A digit is not JSON whitespace. -/
theorem isJsonWs_of_digit (c : Char) (h : c.isDigit = true) : isJsonWs c = false := by
  simp [isJsonWs, isDigit_ne c h ' ' (by decide), isDigit_ne c h '\t' (by decide),
    isDigit_ne c h '\n' (by decide), isDigit_ne c h '\r' (by decide)]

/-- Every encoded value begins with a significant character that is
neither whitespace nor a closing bracket. -/
theorem encodeValue_head (v : JValue) :
    ∃ c cs, encodeValue v = c :: cs ∧ isJsonWs c = false ∧ c ≠ ']' := by
  cases v with
  | null => exact ⟨'n', _, by rw [encodeValue.eq_def], by decide, by decide⟩
  | bool b =>
    cases b with
    | true => exact ⟨'t', _, by rw [encodeValue.eq_def], by decide, by decide⟩
    | false => exact ⟨'f', _, by rw [encodeValue.eq_def], by decide, by decide⟩
  | int n =>
    cases n with
    | ofNat m =>
      obtain ⟨d, ds, hds⟩ := List.exists_cons_of_ne_nil (natDigits_ne_nil m)
      have hd : d.isDigit = true := natDigits_digits m d (by rw [hds]; simp)
      refine ⟨d, ds, ?_, isJsonWs_of_digit d hd, isDigit_ne d hd ']' (by decide)⟩
      rw [encodeValue.eq_def]
      exact hds
    | negSucc m =>
      exact ⟨'-', natDigits (m + 1), by rw [encodeValue.eq_def]; rfl, by decide, by decide⟩
  | str s => exact ⟨'"', _, by rw [encodeValue.eq_def]; rfl, by decide, by decide⟩
  | arr items =>
    cases items with
    | nil => exact ⟨'[', _, by rw [encodeValue.eq_def], by decide, by decide⟩
    | cons x xs => exact ⟨'[', _, by rw [encodeValue.eq_def]; rfl, by decide, by decide⟩
  | obj members =>
    cases members with
    | nil => exact ⟨'\x7b', _, by rw [encodeValue.eq_def], by decide, by decide⟩
    | cons kv kvs =>
      obtain ⟨k, v⟩ := kv
      exact ⟨'\x7b', _, by rw [encodeValue.eq_def]; rfl, by decide, by decide⟩

/-- Whitespace skipping leaves an encoded value's input untouched. -/
theorem skipWs_encodeValue (v : JValue) (rest : List Char) :
    skipWs (encodeValue v ++ rest) = encodeValue v ++ rest := by
  obtain ⟨c, cs, he, hws, _⟩ := encodeValue_head v
  rw [he, List.cons_append, skipWs_cons_not _ _ hws]

/-- An encoded value is never empty. -/
theorem encodeValue_length (v : JValue) : 1 ≤ (encodeValue v).length := by
  obtain ⟨c, cs, he, _, _⟩ := encodeValue_head v
  simp [he]

/-- The tail of an encoded array followed by the closing bracket never
begins with a digit. -/
theorem headNotDigit_items (xs : List JValue) (rest : List Char) :
    headNotDigit (encodeItemsTail xs ++ ']' :: rest) := by
  cases xs with
  | nil =>
    rw [show encodeItemsTail [] = [] by rw [encodeItemsTail.eq_def], List.nil_append]
    show (']').isDigit = false
    decide
  | cons x xs =>
    obtain ⟨c, cs, he⟩ : ∃ c cs, encodeItemsTail (x :: xs) = c :: cs ∧ c = ',' := by
      refine ⟨',', ' ' :: (encodeValue x ++ encodeItemsTail xs), ?_, rfl⟩
      rw [encodeItemsTail.eq_def]
      simp
    rw [he.1, List.cons_append]
    show c.isDigit = false
    rw [he.2]
    decide

/-- The tail of an encoded object followed by the closing brace never
begins with a digit. -/
theorem headNotDigit_members (kvs : List (String × JValue)) (rest : List Char) :
    headNotDigit (encodeMembersTail kvs ++ '\x7d' :: rest) := by
  cases kvs with
  | nil =>
    rw [show encodeMembersTail [] = [] by rw [encodeMembersTail.eq_def], List.nil_append]
    show ('\x7d').isDigit = false
    decide
  | cons kv kvs =>
    obtain ⟨k, v⟩ := kv
    have he : encodeMembersTail ((k, v) :: kvs) =
        ',' :: (' ' :: encodeString k ++ ':' :: ' ' :: encodeValue v ++
          encodeMembersTail kvs) := by
      rw [encodeMembersTail.eq_def]
      simp
    rw [he, List.cons_append]
    show (',').isDigit = false
    decide

/-- Burning one unit of fuel: skip whitespace, then dispatch. -/
theorem parseValue_succ (f : Nat) (input : List Char) :
    parseValue (f + 1) input = parseValueCore f (skipWs input) := by
  rw [parseValue.eq_def]

/-- Dispatch on the null keyword. -/
theorem parseValueCore_null (f : Nat) (X : List Char) :
    parseValueCore f ('n' :: 'u' :: 'l' :: 'l' :: X) = some (JValue.null, X) := by
  rw [parseValueCore.eq_def]; rfl

/-- Dispatch on the true keyword. -/
theorem parseValueCore_true (f : Nat) (X : List Char) :
    parseValueCore f ('t' :: 'r' :: 'u' :: 'e' :: X) = some (JValue.bool true, X) := by
  rw [parseValueCore.eq_def]; rfl

/-- Dispatch on the false keyword. -/
theorem parseValueCore_false (f : Nat) (X : List Char) :
    parseValueCore f ('f' :: 'a' :: 'l' :: 's' :: 'e' :: X) = some (JValue.bool false, X) := by
  rw [parseValueCore.eq_def]; rfl

/-- Dispatch on an opening quote. -/
theorem parseValueCore_quote (f : Nat) (X : List Char) :
    parseValueCore f ('"' :: X) =
      match parseStringBody (X.length + 1) X with
      | some (cs, r) => some (JValue.str (String.mk cs), r)
      | none => none := by
  rw [parseValueCore.eq_def]; rfl

/-- Dispatch on an opening bracket. -/
theorem parseValueCore_bracket (f : Nat) (X : List Char) :
    parseValueCore f ('[' :: X) = parseArrayRest f X := by
  rw [parseValueCore.eq_def]; rfl

/-- Dispatch on an opening brace. -/
theorem parseValueCore_brace (f : Nat) (X : List Char) :
    parseValueCore f ('\x7b' :: X) = parseObjectRest f X := by
  rw [parseValueCore.eq_def]; rfl

/-- Dispatch on a digit falls through to the number reader. -/
theorem parseValueCore_digit (c : Char) (hc : c.isDigit = true) (f : Nat) (X : List Char) :
    parseValueCore f (c :: X) =
      match parseIntTok (c :: X) with
      | some (n, r) => some (JValue.int n, r)
      | none => none := by
  have hn := isDigit_ne c hc 'n' (by decide)
  have ht := isDigit_ne c hc 't' (by decide)
  have hf := isDigit_ne c hc 'f' (by decide)
  have hq := isDigit_ne c hc '"' (by decide)
  have hb := isDigit_ne c hc '[' (by decide)
  have hc2 := isDigit_ne c hc '\x7b' (by decide)
  rw [parseValueCore.eq_def]
  simp [hn, ht, hf, hq, hb, hc2]

/-- Dispatch on a minus sign falls through to the number reader. -/
theorem parseValueCore_minus (f : Nat) (X : List Char) :
    parseValueCore f ('-' :: X) =
      match parseIntTok ('-' :: X) with
      | some (n, r) => some (JValue.int n, r)
      | none => none := by
  rw [parseValueCore.eq_def]; rfl

/-- Dispatch consumes an entire encoded integer when what follows starts
with no digit. -/
theorem parseValueCore_int (n : Int) (rest : List Char) (h : headNotDigit rest) (f : Nat) :
    parseValueCore f (encodeInt n ++ rest) = some (JValue.int n, rest) := by
  cases n with
  | ofNat m =>
    obtain ⟨d, ds, hds⟩ := List.exists_cons_of_ne_nil (natDigits_ne_nil m)
    have hd : d.isDigit = true := natDigits_digits m d (by rw [hds]; simp)
    have henc : encodeInt (Int.ofNat m) ++ rest = d :: (ds ++ rest) := by
      rw [show encodeInt (Int.ofNat m) = natDigits m from rfl, hds]; rfl
    rw [henc, parseValueCore_digit d hd f (ds ++ rest), ← List.cons_append, ← hds,
      show (natDigits m : List Char) = encodeInt (Int.ofNat m) from rfl,
      parseIntTok_encodeInt (Int.ofNat m) rest h]
  | negSucc m =>
    have henc : encodeInt (Int.negSucc m) ++ rest = '-' :: (natDigits (m + 1) ++ rest) := rfl
    rw [henc, parseValueCore_minus, show ('-' :: (natDigits (m + 1) ++ rest)) =
        encodeInt (Int.negSucc m) ++ rest from rfl,
      parseIntTok_encodeInt (Int.negSucc m) rest h]

/-- An empty array closes immediately. -/
theorem parseArrayRest_empty (f : Nat) (input rest : List Char)
    (hskip : skipWs input = ']' :: rest) :
    parseArrayRest f input = some (JValue.arr [], rest) := by
  rw [parseArrayRest.eq_def, hskip]; rfl

/-- A nonempty array reads a first element and then its tail. -/
theorem parseArrayRest_step (f : Nat) (input : List Char) (c0 : Char) (Z : List Char)
    (hskip : skipWs input = c0 :: Z) (hne : c0 ≠ ']') :
    parseArrayRest f input =
      match parseValue f input with
      | some (x, r1) =>
        (match parseItems f r1 with
         | some (xs, r2) => some (JValue.arr (x :: xs), r2)
         | none => none)
      | none => none := by
  rw [parseArrayRest.eq_def, hskip]
  simp [hne]

/-- After an element, a closing bracket ends the array. -/
theorem parseItems_close (f : Nat) (input rest : List Char)
    (hskip : skipWs input = ']' :: rest) :
    parseItems (f + 1) input = some ([], rest) := by
  rw [parseItems.eq_def, hskip]; rfl

/-- After an element, a comma precedes the next element. -/
theorem parseItems_comma (f : Nat) (input rest1 : List Char)
    (hskip : skipWs input = ',' :: rest1) :
    parseItems (f + 1) input =
      (match parseValue f rest1 with
       | some (x, r1) =>
         (match parseItems f r1 with
          | some (xs, r2) => some (x :: xs, r2)
          | none => none)
       | none => none) := by
  rw [parseItems.eq_def, hskip]; rfl

/-- An empty object closes immediately. -/
theorem parseObjectRest_empty (f : Nat) (input rest : List Char)
    (hskip : skipWs input = '\x7d' :: rest) :
    parseObjectRest f input = some (JValue.obj [], rest) := by
  rw [parseObjectRest.eq_def, hskip]; rfl

/-- A nonempty object reads a quoted key, a colon, the value, then its
tail. -/
theorem parseObjectRest_key (f : Nat) (input r : List Char)
    (hskip : skipWs input = '"' :: r) :
    parseObjectRest f input =
      (match parseStringBody (r.length + 1) r with
       | some (k, r1) =>
         (match skipWs r1 with
          | ':' :: r2 =>
            (match parseValue f r2 with
             | some (v, r3) =>
               (match parseMembers f r3 with
                | some (kvs, r4) => some (JValue.obj ((String.mk k, v) :: kvs), r4)
                | none => none)
             | none => none)
          | _ => none)
       | none => none) := by
  rw [parseObjectRest.eq_def, hskip]; rfl

/-- After a member, a closing brace ends the object. -/
theorem parseMembers_close (f : Nat) (input rest : List Char)
    (hskip : skipWs input = '\x7d' :: rest) :
    parseMembers (f + 1) input = some ([], rest) := by
  rw [parseMembers.eq_def, hskip]; rfl

/-- After a member, a comma hands the input past it to the key reader. -/
theorem parseMembers_comma (f : Nat) (input rest1 : List Char)
    (hskip : skipWs input = ',' :: rest1) :
    parseMembers (f + 1) input =
      (match skipWs rest1 with
       | '"' :: r =>
         (match parseStringBody (r.length + 1) r with
          | some (k, r1) =>
            (match skipWs r1 with
             | ':' :: r2 =>
               (match parseValue f r2 with
                | some (v, r3) =>
                  (match parseMembers f r3 with
                   | some (kvs, r4) => some ((String.mk k, v) :: kvs, r4)
                   | none => none)
                | none => none)
             | _ => none)
          | none => none)
       | _ => none) := by
  rw [parseMembers.eq_def, hskip]; rfl

/-- After a member, a comma precedes the next quoted key. -/
theorem parseMembers_comma_key (f : Nat) (input rest1 r : List Char)
    (hskip : skipWs input = ',' :: rest1) (hskip2 : skipWs rest1 = '"' :: r) :
    parseMembers (f + 1) input =
      (match parseStringBody (r.length + 1) r with
       | some (k, r1) =>
         (match skipWs r1 with
          | ':' :: r2 =>
            (match parseValue f r2 with
             | some (v, r3) =>
               (match parseMembers f r3 with
                | some (kvs, r4) => some ((String.mk k, v) :: kvs, r4)
                | none => none)
             | none => none)
          | _ => none)
       | none => none) := by
  rw [parseMembers_comma f input rest1 hskip, hskip2]
  rfl

/-- The encoder's null keyword. -/
theorem encodeValue_null_eq : encodeValue JValue.null = ['n', 'u', 'l', 'l'] := by
  rw [encodeValue.eq_def]

/-- The encoder's true keyword. -/
theorem encodeValue_true_eq : encodeValue (JValue.bool true) = ['t', 'r', 'u', 'e'] := by
  rw [encodeValue.eq_def]

/-- The encoder's false keyword. -/
theorem encodeValue_false_eq : encodeValue (JValue.bool false) = ['f', 'a', 'l', 's', 'e'] := by
  rw [encodeValue.eq_def]

/-- The encoder on an integer. -/
theorem encodeValue_int_eq (n : Int) : encodeValue (JValue.int n) = encodeInt n := by
  rw [encodeValue.eq_def]

/-- The encoder on a string. -/
theorem encodeValue_str_eq (s : String) :
    encodeValue (JValue.str s) = '"' :: (encodeStringBody s.data ++ ['"']) := by
  rw [encodeValue.eq_def]; rfl

/-- The encoder on an empty array. -/
theorem encodeValue_arr_nil_eq : encodeValue (JValue.arr []) = ['[', ']'] := by
  rw [encodeValue.eq_def]

/-- The encoder on a nonempty array. -/
theorem encodeValue_arr_cons_eq (x : JValue) (xs : List JValue) :
    encodeValue (JValue.arr (x :: xs)) =
      '[' :: ((encodeValue x ++ encodeItemsTail xs) ++ [']']) := by
  rw [encodeValue.eq_def]; rfl

/-- The encoder on an empty object. -/
theorem encodeValue_obj_nil_eq : encodeValue (JValue.obj []) = ['\x7b', '\x7d'] := by
  rw [encodeValue.eq_def]

/-- The encoder on a nonempty object. -/
theorem encodeValue_obj_cons_eq (k : String) (v : JValue) (kvs : List (String × JValue)) :
    encodeValue (JValue.obj ((k, v) :: kvs)) =
      '\x7b' :: (('"' :: (encodeStringBody k.data ++ ['"']) ++
        ':' :: ' ' :: encodeValue v ++ encodeMembersTail kvs) ++ ['\x7d']) := by
  rw [encodeValue.eq_def]; rfl

/-- An empty array tail writes nothing. -/
theorem encodeItemsTail_nil : encodeItemsTail [] = [] := by
  rw [encodeItemsTail.eq_def]

/-- A nonempty array tail writes a comma, a space and the element. -/
theorem encodeItemsTail_cons (x : JValue) (xs : List JValue) :
    encodeItemsTail (x :: xs) = ',' :: (' ' :: (encodeValue x ++ encodeItemsTail xs)) := by
  rw [encodeItemsTail.eq_def]; rfl

/-- An empty object tail writes nothing. -/
theorem encodeMembersTail_nil : encodeMembersTail [] = [] := by
  rw [encodeMembersTail.eq_def]

/-- A nonempty object tail writes a comma, a space, the quoted key, a
colon, a space and the value. -/
theorem encodeMembersTail_cons (k : String) (v : JValue) (kvs : List (String × JValue)) :
    encodeMembersTail ((k, v) :: kvs) =
      ',' :: (' ' :: ('"' :: (encodeStringBody k.data ++
        ('"' :: (':' :: (' ' :: (encodeValue v ++ encodeMembersTail kvs))))))) := by
  rw [encodeMembersTail.eq_def]
  simp [encodeString, List.append_assoc]

/-- Rebuilding a string from its character list is the identity. -/
theorem stringMk_data (s : String) : String.mk s.data = s := rfl

/-- The decoder inverts the encoder: with fuel beyond the input's length,
reading an encoded value (or an encoded array tail up to its bracket, or
an encoded object tail up to its brace) returns the original value and
leaves exactly the continuation, whenever that continuation does not begin
with a digit. -/
theorem parse_encode (fuel : Nat) :
    (∀ (v : JValue) (input rest : List Char),
      skipWs input = encodeValue v ++ rest → headNotDigit rest →
      input.length < fuel → parseValue fuel input = some (v, rest)) ∧
    (∀ (xs : List JValue) (rest : List Char),
      headNotDigit rest → (encodeItemsTail xs ++ ']' :: rest).length < fuel →
      parseItems fuel (encodeItemsTail xs ++ ']' :: rest) = some (xs, rest)) ∧
    (∀ (kvs : List (String × JValue)) (rest : List Char),
      headNotDigit rest → (encodeMembersTail kvs ++ '\x7d' :: rest).length < fuel →
      parseMembers fuel (encodeMembersTail kvs ++ '\x7d' :: rest) = some (kvs, rest)) := by
  induction fuel using Nat.strong_induction_on with
  | _ fuel ih =>
  cases fuel with
  | zero =>
    refine ⟨?_, ?_, ?_⟩
    · intro v input rest _ _ h; omega
    · intro xs rest _ h; omega
    · intro kvs rest _ h; omega
  | succ f =>
    obtain ⟨ihA, ihB, ihC⟩ := ih f (Nat.lt_succ_self f)
    refine ⟨?_, ?_, ?_⟩
    · intro v input rest hskip hnd hlen
      have hL : (encodeValue v ++ rest).length ≤ input.length :=
        hskip ▸ skipWs_length input
      rw [parseValue_succ, hskip]
      cases v with
      | null =>
        rw [encodeValue_null_eq]
        simp only [List.cons_append, List.nil_append]
        rw [parseValueCore_null]
      | bool b =>
        cases b with
        | true =>
          rw [encodeValue_true_eq]
          simp only [List.cons_append, List.nil_append]
          rw [parseValueCore_true]
        | false =>
          rw [encodeValue_false_eq]
          simp only [List.cons_append, List.nil_append]
          rw [parseValueCore_false]
      | int n =>
        rw [encodeValue_int_eq, parseValueCore_int n rest hnd f]
      | str s =>
        rw [encodeValue_str_eq]
        simp only [List.cons_append, List.append_assoc, List.singleton_append,
            List.nil_append]
        rw [parseValueCore_quote]
        have hsb := encodeStringBody_length s.data
        rw [parseStringBody_encode s.data _ rest
          (by simp only [List.length_append, List.length_cons]; omega)]
      | arr items =>
        cases items with
        | nil =>
          rw [encodeValue_arr_nil_eq]
          simp only [List.cons_append, List.nil_append]
          rw [parseValueCore_bracket,
            parseArrayRest_empty f _ rest (skipWs_cons_not ']' rest (by decide))]
        | cons x xs =>
          rw [encodeValue_arr_cons_eq]
          simp only [List.cons_append, List.append_assoc, List.singleton_append,
            List.nil_append]
          rw [parseValueCore_bracket]
          obtain ⟨c0, cs0, he0, hws0, hnb0⟩ := encodeValue_head x
          have hskipX : skipWs (encodeValue x ++ (encodeItemsTail xs ++ ']' :: rest)) =
              c0 :: (cs0 ++ (encodeItemsTail xs ++ ']' :: rest)) := by
            rw [skipWs_encodeValue x, he0, List.cons_append]
          rw [encodeValue_arr_cons_eq] at hL
          simp only [List.length_append, List.length_cons, List.length_singleton] at hL
          have hex := encodeValue_length x
          have hv := ihA x (encodeValue x ++ (encodeItemsTail xs ++ ']' :: rest))
            (encodeItemsTail xs ++ ']' :: rest) (skipWs_encodeValue x _)
            (headNotDigit_items xs rest)
            (by simp only [List.length_append, List.length_cons]; omega)
          have hi := ihB xs rest hnd
            (by simp only [List.length_append, List.length_cons]; omega)
          rw [parseArrayRest_step f _ c0 _ hskipX hnb0]
          simp [hv, hi]
      | obj members =>
        cases members with
        | nil =>
          rw [encodeValue_obj_nil_eq]
          simp only [List.cons_append, List.nil_append]
          rw [parseValueCore_brace,
            parseObjectRest_empty f _ rest (skipWs_cons_not '\x7d' rest (by decide))]
        | cons kv kvs =>
          obtain ⟨k, v'⟩ := kv
          rw [encodeValue_obj_cons_eq]
          simp only [List.cons_append, List.append_assoc, List.singleton_append,
            List.nil_append]
          rw [parseValueCore_brace,
            parseObjectRest_key f _ _ (skipWs_cons_not '"' _ (by decide))]
          rw [encodeValue_obj_cons_eq] at hL
          simp only [List.length_append, List.length_cons, List.length_singleton] at hL
          have hkb := encodeStringBody_length k.data
          have hev := encodeValue_length v'
          rw [parseStringBody_encode k.data _ _
            (by simp only [List.length_append, List.length_cons]; omega)]
          have hv := ihA v'
            (' ' :: (encodeValue v' ++ (encodeMembersTail kvs ++ '\x7d' :: rest)))
            (encodeMembersTail kvs ++ '\x7d' :: rest)
            (by rw [skipWs_cons_ws ' ' _ (by decide), skipWs_encodeValue])
            (headNotDigit_members kvs rest)
            (by simp only [List.length_append, List.length_cons]; omega)
          have hm := ihC kvs rest hnd
            (by simp only [List.length_append, List.length_cons]; omega)
          simp [skipWs_cons_not, isJsonWs, hv, hm, stringMk_data]
    · intro xs rest hnd hlen
      cases xs with
      | nil =>
        rw [encodeItemsTail_nil, List.nil_append]
        exact parseItems_close f _ rest (skipWs_cons_not ']' rest (by decide))
      | cons x xs =>
        rw [encodeItemsTail_cons]
        simp only [List.cons_append, List.append_assoc, List.nil_append]
        rw [encodeItemsTail_cons] at hlen
        simp only [List.length_append, List.length_cons] at hlen
        have hex := encodeValue_length x
        have hv := ihA x (' ' :: (encodeValue x ++ (encodeItemsTail xs ++ ']' :: rest)))
          (encodeItemsTail xs ++ ']' :: rest)
          (by rw [skipWs_cons_ws ' ' _ (by decide), skipWs_encodeValue])
          (headNotDigit_items xs rest)
          (by simp only [List.length_append, List.length_cons]; omega)
        have hi := ihB xs rest hnd
          (by simp only [List.length_append, List.length_cons]; omega)
        rw [parseItems_comma f _ _ (skipWs_cons_not ',' _ (by decide))]
        simp [hv, hi]
    · intro kvs rest hnd hlen
      cases kvs with
      | nil =>
        rw [encodeMembersTail_nil, List.nil_append]
        exact parseMembers_close f _ rest (skipWs_cons_not '\x7d' rest (by decide))
      | cons kv kvs =>
        obtain ⟨k, v'⟩ := kv
        rw [encodeMembersTail_cons]
        simp only [List.cons_append, List.append_assoc, List.nil_append]
        rw [encodeMembersTail_cons] at hlen
        simp only [List.length_append, List.length_cons] at hlen
        have hkb := encodeStringBody_length k.data
        have hev := encodeValue_length v'
        rw [parseMembers_comma_key f _ _ _ (skipWs_cons_not ',' _ (by decide))
          (by rw [skipWs_cons_ws ' ' _ (by decide)]
              exact skipWs_cons_not '"' _ (by decide))]
        rw [parseStringBody_encode k.data _ _
          (by simp only [List.length_append, List.length_cons]; omega)]
        have hv := ihA v'
          (' ' :: (encodeValue v' ++ (encodeMembersTail kvs ++ '\x7d' :: rest)))
          (encodeMembersTail kvs ++ '\x7d' :: rest)
          (by rw [skipWs_cons_ws ' ' _ (by decide), skipWs_encodeValue])
          (headNotDigit_members kvs rest)
          (by simp only [List.length_append, List.length_cons]; omega)
        have hm := ihC kvs rest hnd
          (by simp only [List.length_append, List.length_cons]; omega)
        simp [skipWs_cons_not, isJsonWs, hv, hm, stringMk_data]

/-- Claim C5: for every JSON value (arbitrarily nested), decoding the
encoding returns the value itself, and the encoding is the same whatever
extra positional arguments the host mapper passes to `dumps` (they are
ignored). -/
theorem jsonpickler_roundtrip {α : Type} (v : JValue) (args : List α) :
    JSONPickler.loads (JSONPickler.dumps v args) = some v ∧
    JSONPickler.dumps v args = JSONPickler.dumps v ([] : List α) := by
  refine ⟨?_, rfl⟩
  have hdata : (JSONPickler.dumps v args).data = encodeValue v := rfl
  have hskip : skipWs (encodeValue v) = encodeValue v ++ [] := by
    rw [List.append_nil]
    obtain ⟨c, cs, he, hws, _⟩ := encodeValue_head v
    rw [he, skipWs_cons_not _ _ hws]
  have hp := (parse_encode ((encodeValue v).length + 1)).1 v (encodeValue v) []
    hskip trivial (by omega)
  simp only [JSONPickler.loads, hdata, hp]
  simp [skipWs]
